import Mathlib

/-!
Verification of the `fossil-algo` array-processing library
(`src/code/logic/filter.c` and `src/code/logic/reduce.c`).

Embedding conventions.
A caller-owned buffer of `count` elements is modelled at element
granularity as a memory function `m : Nat → α` (index `j` holds the
`stride` bytes at offset `j * stride`; the byte stride itself only
matters for the status codes, where it is computed from the type
tables exactly as in the C sources).  A C `for` loop over indices
`i = start .. end-1` is rendered as structural recursion on the number
of remaining iterations, carrying the current index; `while` loops
whose measure strictly decreases by one per iteration are rendered the
same way with the measure's initial value as the iteration budget.
Null pointers are modelled by `Bool` flags (for callbacks and output
slots) or `Option String` (for nullable identifier strings).  C
`memmove`/`memcpy` of one element becomes a pointwise function update;
`memcpy` of a prefix becomes `memcpyN`.  Machine integers for the
reduce accumulators are modelled as `Int` with explicit wraparound
(`% 2^w`).  The `f32`/`f64` branches of the reduce operators are kept
with exact integer models of their initialisation constants
(`FLT_MAX = 2^128 - 2^104`, `DBL_MAX = 2^1024 - 2^971` are exact
integers); no claim in this development exercises floating-point
rounding.  In `filter_lane_compact`/`filter_lane_stable` with
`count = 0` the C expression `(count + lanes - 1) / lanes` divides by
zero (undefined behaviour); the model follows Lean's `Nat` arithmetic
(`0 - 1 = 0`, `_ / 0 = 0`), which makes the lane loop a no-op there.
-/

namespace FossilAlgo

/-- Pointwise update of a memory function: the effect of writing one
element (`memmove`/`memcpy` of `stride` bytes) at index `i`. -/
def upd {α : Type} (m : Nat → α) (i : Nat) (v : α) : Nat → α :=
  fun j => if j = i then v else m j

/-- The first `n` elements of a buffer, as a list. -/
def readVec {α : Type} (m : Nat → α) (n : Nat) : List α :=
  (List.range n).map m

/-- Elements of a buffer at indices `s, s+1, ..., s+n-1`, as a list. -/
def readSlice {α : Type} (m : Nat → α) (s n : Nat) : List α :=
  (List.range' s n).map m

/-- `memcpy(dst, src, n * stride)`: the first `n` elements come from
`src`, the rest of `dst` is untouched. -/
def memcpyN {α : Type} (dst src : Nat → α) (n : Nat) : Nat → α :=
  fun i => if i < n then src i else dst i

/-! ### Type registry of `filter.c` (`g_filter_types`) -/

/-- The static table `g_filter_types` of `filter.c`: identifier and
byte width of each supported element type, on an LP64 platform
(`sizeof(char*) = sizeof(size_t) = 8`, `sizeof(bool) = 1`). -/
def g_filter_types : List (String × Nat) :=
  [("i8", 1), ("i16", 2), ("i32", 4), ("i64", 8),
   ("u8", 1), ("u16", 2), ("u32", 4), ("u64", 8),
   ("f32", 4), ("f64", 8),
   ("char", 1), ("cstr", 8),
   ("bool", 1),
   ("hex", 8), ("oct", 8), ("bin", 8),
   ("size", 8), ("datetime", 8), ("duration", 8),
   ("any", 1), ("null", 0)]

/-- `fossil_algorithm_filter_type_sizeof`: 0 for a null pointer, else
the first matching table entry's size, else 0. -/
def fossil_algorithm_filter_type_sizeof (type_id : Option String) : Nat :=
  match type_id with
  | none => 0
  | some s => (g_filter_types.lookup s).getD 0

/-- `fossil_algorithm_filter_type_supported`. -/
def fossil_algorithm_filter_type_supported (type_id : Option String) : Bool :=
  fossil_algorithm_filter_type_sizeof type_id != 0

/-! ### Core filter algorithms (`filter.c`) -/

/-- Loop of `filter_inplace`: `n` is the number of remaining read
positions (`count - read`); `read` is the read cursor and `write` the
write cursor.  A kept element is moved down to the write cursor only
when the cursor lags the read position (`write != read`). -/
def inplaceLoop {α : Type} (p : α → Bool) :
    Nat → Nat → Nat → (Nat → α) → (Nat → α) × Nat
  | 0, _, write, m => (m, write)
  | n + 1, read, write, m =>
    let elem := m read
    if p elem then
      inplaceLoop p n (read + 1) (write + 1)
        (if write ≠ read then upd m write elem else m)
    else
      inplaceLoop p n (read + 1) write m

/-- `filter_inplace(base, count, stride, pred, user)`. -/
def filter_inplace {α : Type} (m : Nat → α) (count : Nat) (p : α → Bool) :
    (Nat → α) × Nat :=
  inplaceLoop p count 0 0 m

/-- Scratch-filling loop of `filter_stable`: copies each kept element
of `m` (scanning `n` indices from `i`) into `tmp` at the `kept`
cursor. -/
def stableLoop {α : Type} (p : α → Bool) (m : Nat → α) :
    Nat → Nat → Nat → (Nat → α) → (Nat → α) × Nat
  | 0, _, kept, tmp => (tmp, kept)
  | n + 1, i, kept, tmp =>
    let elem := m i
    if p elem then
      stableLoop p m n (i + 1) (kept + 1) (upd tmp kept elem)
    else
      stableLoop p m n (i + 1) kept tmp

/-- `filter_stable(base, count, stride, pred, user)`.  `tmp0` is the
(arbitrary) initial content of the `malloc`ed scratch buffer; the
successful-allocation path is modelled. -/
def filter_stable {α : Type} (m : Nat → α) (count : Nat) (p : α → Bool)
    (tmp0 : Nat → α) : (Nat → α) × Nat :=
  let r := stableLoop p m count 0 0 tmp0
  (memcpyN m r.1 r.2, r.2)

/-- Loop of `filter_count_only`: counts hits over `n` indices from `i`. -/
def countOnlyLoop {α : Type} (p : α → Bool) (m : Nat → α) :
    Nat → Nat → Nat → Nat
  | 0, _, hits => hits
  | n + 1, i, hits =>
    countOnlyLoop p m n (i + 1) (if p (m i) then hits + 1 else hits)

/-- `filter_count_only(base, count, stride, pred, user)`: returns the
hit count and never writes to the buffer. -/
def filter_count_only {α : Type} (m : Nat → α) (count : Nat)
    (p : α → Bool) : (Nat → α) × Nat :=
  (m, countOnlyLoop p m count 0 0)

/-- Loop of `filter_first`: forward scan over `n` indices from `i`,
short-circuiting with 1 on the first hit. -/
def firstLoop {α : Type} (p : α → Bool) (m : Nat → α) : Nat → Nat → Nat
  | 0, _ => 0
  | n + 1, i => if p (m i) then 1 else firstLoop p m n (i + 1)

/-- `filter_first(base, count, stride, pred, user)`. -/
def filter_first {α : Type} (m : Nat → α) (count : Nat) (p : α → Bool) :
    (Nat → α) × Nat :=
  (m, firstLoop p m count 0)

/-- Loop of `filter_last`: `for (i = count; i-- > 0; )`, scanning
backwards and short-circuiting with 1 on the first hit from the end. -/
def lastLoop {α : Type} (p : α → Bool) (m : Nat → α) : Nat → Nat
  | 0 => 0
  | i + 1 => if p (m i) then 1 else lastLoop p m i

/-- `filter_last(base, count, stride, pred, user)`. -/
def filter_last {α : Type} (m : Nat → α) (count : Nat) (p : α → Bool) :
    (Nat → α) × Nat :=
  (m, lastLoop p m count)

/-- Loop of `filter_partition`: two pointers `left` (from the start)
and `right` (from the end); a failing element at `left` is overwritten
by the element at `right - 1` (`memmove`), which is not re-examined.
`right - left` decreases by exactly one per iteration, so the initial
value `count` of that measure serves as the iteration budget. -/
def partitionLoop {α : Type} (p : α → Bool) :
    Nat → Nat → Nat → (Nat → α) → (Nat → α) × Nat
  | 0, left, _, m => (m, left)
  | fuel + 1, left, right, m =>
    if left < right then
      if p (m left) then
        partitionLoop p fuel (left + 1) right m
      else
        partitionLoop p fuel left (right - 1) (upd m left (m (right - 1)))
    else (m, left)

/-- `filter_partition(base, count, stride, pred, user)`. -/
def filter_partition {α : Type} (m : Nat → α) (count : Nat)
    (p : α → Bool) : (Nat → α) × Nat :=
  partitionLoop p count 0 count m

/-- Inner loop of `filter_lane_compact`: scans `n` indices from `i`,
unconditionally moving every kept element down to the shared `write`
cursor. -/
def laneCompactInner {α : Type} (p : α → Bool) :
    Nat → Nat → Nat → (Nat → α) → (Nat → α) × Nat
  | 0, _, write, m => (m, write)
  | n + 1, i, write, m =>
    let elem := m i
    if p elem then
      laneCompactInner p n (i + 1) (write + 1) (upd m write elem)
    else
      laneCompactInner p n (i + 1) write m

/-- Outer lane loop of `filter_lane_compact`: `n` remaining lanes,
current lane index `lane`; each lane scans
`[lane * lane_size, min (lane * lane_size + lane_size) count)` and the
loop breaks once a lane's start reaches `count`. -/
def laneCompactOuter {α : Type} (p : α → Bool) (count lane_size : Nat) :
    Nat → Nat → Nat → (Nat → α) → (Nat → α) × Nat
  | 0, _, write, m => (m, write)
  | n + 1, lane, write, m =>
    let start := lane * lane_size
    if start ≥ count then (m, write)
    else
      let e := min (start + lane_size) count
      let r := laneCompactInner p (e - start) start write m
      laneCompactOuter p count lane_size n (lane + 1) r.2 r.1

/-- `filter_lane_compact(base, count, stride, lanes, pred, user)`. -/
def filter_lane_compact {α : Type} (m : Nat → α) (count lanes0 : Nat)
    (p : α → Bool) : (Nat → α) × Nat :=
  let lanes1 := if lanes0 = 0 then 1 else lanes0
  let lanes := if lanes1 > count then count else lanes1
  let lane_size := (count + lanes - 1) / lanes
  laneCompactOuter p count lane_size lanes 0 0 m

/-- Inner loop of `filter_lane_stable`: scans `n` indices of `m` from
`i`, copying kept elements into `tmp` at the shared `out` cursor. -/
def laneStableInner {α : Type} (p : α → Bool) (m : Nat → α) :
    Nat → Nat → Nat → (Nat → α) → (Nat → α) × Nat
  | 0, _, out, tmp => (tmp, out)
  | n + 1, i, out, tmp =>
    let elem := m i
    if p elem then
      laneStableInner p m n (i + 1) (out + 1) (upd tmp out elem)
    else
      laneStableInner p m n (i + 1) out tmp

/-- Outer lane loop of `filter_lane_stable`: same lane geometry as
`laneCompactOuter`, writing into the scratch buffer. -/
def laneStableOuter {α : Type} (p : α → Bool) (m : Nat → α)
    (count lane_size : Nat) :
    Nat → Nat → Nat → (Nat → α) → (Nat → α) × Nat
  | 0, _, out, tmp => (tmp, out)
  | n + 1, lane, out, tmp =>
    let start := lane * lane_size
    if start ≥ count then (tmp, out)
    else
      let e := min (start + lane_size) count
      let r := laneStableInner p m (e - start) start out tmp
      laneStableOuter p m count lane_size n (lane + 1) r.2 r.1

/-- `filter_lane_stable(base, count, stride, lanes, pred, user)`.
`tmp0` is the initial content of the scratch buffer. -/
def filter_lane_stable {α : Type} (m : Nat → α) (count lanes0 : Nat)
    (p : α → Bool) (tmp0 : Nat → α) : (Nat → α) × Nat :=
  let lanes1 := if lanes0 = 0 then 1 else lanes0
  let lanes := if lanes1 > count then count else lanes1
  let lane_size := (count + lanes - 1) / lanes
  let r := laneStableOuter p m count lane_size lanes 0 0 tmp0
  (memcpyN m r.1 r.2, r.2)

/-- The `[start, end)` ranges scanned by the lane loops of `filter.c`
(and the element loop of `reduce.c`): `n` remaining lanes from lane
index `lane`, with the same break-once-start-reaches-count rule. -/
def laneRangesLoop (count lane_size : Nat) : Nat → Nat → List (Nat × Nat)
  | 0, _ => []
  | n + 1, lane =>
    let start := lane * lane_size
    if start ≥ count then []
    else (start, min (start + lane_size) count) ::
      laneRangesLoop count lane_size n (lane + 1)

/-- The lane ranges produced for a given `count` and (already clamped)
lane count `lanes`, with `lane_size = (count + lanes - 1) / lanes` as
in the C sources. -/
def laneRanges (count lanes : Nat) : List (Nat × Nat) :=
  laneRangesLoop count ((count + lanes - 1) / lanes) lanes 0

/-! ### Filter execution entry point -/

/-- `fossil_algorithm_filter_exec`.  Null pointers are modelled by
flags: `base_null`/`predicate_null` for the buffer and callback,
`out_count_null` for the output slot; `type_id`, `algorithm_id` and
`mode_id` are nullable strings.  The result is the status code, the
final buffer contents, and the value stored through `out_count`
(`none` when nothing was written). -/
def fossil_algorithm_filter_exec {α : Type}
    (base_null : Bool) (m : Nat → α) (count : Nat)
    (type_id algorithm_id0 mode_id0 : Option String) (lanes : Nat)
    (predicate_null : Bool) (predicate : α → Bool)
    (out_count_null : Bool) (tmp0 : Nat → α) :
    Int × (Nat → α) × Option Nat :=
  if base_null || predicate_null then (-1, m, none)
  else
    let stride := fossil_algorithm_filter_type_sizeof type_id
    if stride = 0 then (-2, m, none)
    else
      let algorithm_id := algorithm_id0.getD "auto"
      let mode_id := mode_id0.getD "auto"
      let algorithm_id :=
        if algorithm_id = "auto" then
          if mode_id = "lane" || lanes > 1 then "lane-compact" else "inplace"
        else algorithm_id
      let algorithm_id := if mode_id = "dry-run" then "count-only" else algorithm_id
      let r? : Option ((Nat → α) × Nat) :=
        if algorithm_id = "inplace" || algorithm_id = "compact" then
          some (filter_inplace m count predicate)
        else if algorithm_id = "stable" then
          some (filter_stable m count predicate tmp0)
        else if algorithm_id = "lane-compact" then
          some (filter_lane_compact m count lanes predicate)
        else if algorithm_id = "lane-stable" then
          some (filter_lane_stable m count lanes predicate tmp0)
        else if algorithm_id = "count-only" then
          some (filter_count_only m count predicate)
        else if algorithm_id = "first" then
          some (filter_first m count predicate)
        else if algorithm_id = "last" then
          some (filter_last m count predicate)
        else if algorithm_id = "partition" then
          some (filter_partition m count predicate)
        else none
      match r? with
      | none => (-3, m, none)
      | some r => (0, r.1, if out_count_null then none else some r.2)

/-! ### Type registry of `reduce.c` (`g_reduce_types`) -/

/-- The static table `g_reduce_types` of `reduce.c` (LP64 sizes). -/
def g_reduce_types : List (String × Nat) :=
  [("i8", 1), ("i16", 2), ("i32", 4), ("i64", 8),
   ("u8", 1), ("u16", 2), ("u32", 4), ("u64", 8),
   ("f32", 4), ("f64", 8),
   ("bool", 1),
   ("size", 8), ("datetime", 8), ("duration", 8),
   ("any", 1), ("null", 0)]

/-- `fossil_algorithm_reduce_type_sizeof`. -/
def fossil_algorithm_reduce_type_sizeof (type_id : Option String) : Nat :=
  match type_id with
  | none => 0
  | some s => (g_reduce_types.lookup s).getD 0

/-- `fossil_algorithm_reduce_type_supported`. -/
def fossil_algorithm_reduce_type_supported (type_id : Option String) : Bool :=
  fossil_algorithm_reduce_type_sizeof type_id != 0

/-! ### Internal reducers (`reduce.c`)

Accumulator and element values are modelled as `Int`; fixed-width
integer wraparound is explicit.  Boolean values are 0/1 integers. -/

/-- Unsigned wraparound to `w` bits. -/
def wrapU (w : Nat) (v : Int) : Int := v % ((2 : Int) ^ w)

/-- Twos-complement wraparound to `w` bits. -/
def wrapI (w : Nat) (v : Int) : Int :=
  (v + (2 : Int) ^ (w - 1)) % ((2 : Int) ^ w) - (2 : Int) ^ (w - 1)

/-- `reduce_sum(accum, elem, type_id)`: type-dispatched addition with
the native fixed-width semantics; unmatched types leave the
accumulator untouched (the C function writes nothing). -/
def reduce_sum (accum elem : Int) (type_id : String) : Int :=
  if type_id = "i8" then wrapI 8 (accum + elem)
  else if type_id = "i16" then wrapI 16 (accum + elem)
  else if type_id = "i32" then wrapI 32 (accum + elem)
  else if type_id = "i64" then wrapI 64 (accum + elem)
  else if type_id = "u8" then wrapU 8 (accum + elem)
  else if type_id = "u16" then wrapU 16 (accum + elem)
  else if type_id = "u32" then wrapU 32 (accum + elem)
  else if type_id = "u64" then wrapU 64 (accum + elem)
  else if type_id = "f32" then accum + elem
  else if type_id = "f64" then accum + elem
  else accum

/-- `reduce_min(accum, elem, type_id)`: only the signed integer widths
and the two float widths are handled; every other type (in particular
all unsigned widths) is a no-op. -/
def reduce_min (accum elem : Int) (type_id : String) : Int :=
  if type_id = "i8" then (if elem < accum then elem else accum)
  else if type_id = "i16" then (if elem < accum then elem else accum)
  else if type_id = "i32" then (if elem < accum then elem else accum)
  else if type_id = "i64" then (if elem < accum then elem else accum)
  else if type_id = "f32" then (if elem < accum then elem else accum)
  else if type_id = "f64" then (if elem < accum then elem else accum)
  else accum

/-- `reduce_max(accum, elem, type_id)`: same narrowing as
`reduce_min` — no `u8`/`u16`/`u32`/`u64` branch exists. -/
def reduce_max (accum elem : Int) (type_id : String) : Int :=
  if type_id = "i8" then (if elem > accum then elem else accum)
  else if type_id = "i16" then (if elem > accum then elem else accum)
  else if type_id = "i32" then (if elem > accum then elem else accum)
  else if type_id = "i64" then (if elem > accum then elem else accum)
  else if type_id = "f32" then (if elem > accum then elem else accum)
  else if type_id = "f64" then (if elem > accum then elem else accum)
  else accum

/-- `reduce_any(accum, elem)` on 0/1 booleans. -/
def reduce_any (accum elem : Int) : Int :=
  if accum ≠ 0 ∨ elem ≠ 0 then 1 else 0

/-- `reduce_all(accum, elem)` on 0/1 booleans. -/
def reduce_all (accum elem : Int) : Int :=
  if accum ≠ 0 ∧ elem ≠ 0 then 1 else 0

/-- `FLT_MAX`, an exactly representable integer. -/
def fltMax : Int := 2 ^ 128 - 2 ^ 104

/-- `DBL_MAX`, an exactly representable integer. -/
def dblMax : Int := 2 ^ 1024 - 2 ^ 971

/-- Accumulator initialisation block of `fossil_algorithm_reduce_exec`
(the chain starting at `/* Initialize accumulator */`): operators or
type identifiers with no matching branch leave the caller's
accumulator bytes as they were. -/
def reduceInit (op_id type_id : String) (accum0 : Int) : Int :=
  if op_id = "sum" ∨ op_id = "count" then 0
  else if op_id = "min" then
    if type_id = "i8" then 127
    else if type_id = "i16" then 32767
    else if type_id = "i32" then 2147483647
    else if type_id = "i64" then 9223372036854775807
    else if type_id = "f32" then fltMax
    else if type_id = "f64" then dblMax
    else accum0
  else if op_id = "max" then
    if type_id = "i8" then -128
    else if type_id = "i16" then -32768
    else if type_id = "i32" then -2147483648
    else if type_id = "i64" then -9223372036854775808
    else if type_id = "f32" then -fltMax
    else if type_id = "f64" then -dblMax
    else accum0
  else if op_id = "any" then 0
  else if op_id = "all" then 1
  else accum0

/-- Per-element loop of `fossil_algorithm_reduce_exec` over one lane:
`n` remaining indices from `i`.  The `Bool` component is `false` when
the loop hit the `else return -3` branch (unrecognised operator); the
`Int` component is the accumulator at that point. -/
def reduceInner (op_id type_id : String) (m : Nat → Int)
    (fn : Int → Int → Int) : Nat → Nat → Int → Int × Bool
  | 0, _, acc => (acc, true)
  | n + 1, i, acc =>
    let elem := m i
    if op_id = "sum" then
      reduceInner op_id type_id m fn n (i + 1) (reduce_sum acc elem type_id)
    else if op_id = "min" then
      reduceInner op_id type_id m fn n (i + 1) (reduce_min acc elem type_id)
    else if op_id = "max" then
      reduceInner op_id type_id m fn n (i + 1) (reduce_max acc elem type_id)
    else if op_id = "count" then
      reduceInner op_id type_id m fn n (i + 1) (wrapU 64 (acc + 1))
    else if op_id = "any" then
      reduceInner op_id type_id m fn n (i + 1) (reduce_any acc elem)
    else if op_id = "all" then
      reduceInner op_id type_id m fn n (i + 1) (reduce_all acc elem)
    else if op_id = "custom" then
      reduceInner op_id type_id m fn n (i + 1) (fn acc elem)
    else (acc, false)

/-- Lane loop of `fossil_algorithm_reduce_exec`: `n` remaining lanes
from lane index `lane`, same lane geometry as the filter lane loops. -/
def reduceOuter (op_id type_id : String) (m : Nat → Int)
    (fn : Int → Int → Int) (count lane_size : Nat) :
    Nat → Nat → Int → Int × Bool
  | 0, _, acc => (acc, true)
  | n + 1, lane, acc =>
    let start := lane * lane_size
    if start ≥ count then (acc, true)
    else
      let e := min (start + lane_size) count
      let r := reduceInner op_id type_id m fn (e - start) start acc
      if r.2 then
        reduceOuter op_id type_id m fn count lane_size n (lane + 1) r.1
      else r

/-- `fossil_algorithm_reduce_exec`.  `accum0` is the caller's initial
accumulator content; the result is the status code and the final
accumulator content (equal to `accum0` whenever nothing was written
through `out_result`).  `mode_id0` is accepted and ignored, as in the
C source; the `user` context is absorbed into `reduce_fn`. -/
def fossil_algorithm_reduce_exec
    (base_null : Bool) (m : Nat → Int) (count : Nat)
    (type_id op_id mode_id0 : Option String) (lanes0 : Nat)
    (out_result_null : Bool) (accum0 : Int)
    (reduce_fn_null : Bool) (reduce_fn : Int → Int → Int) : Int × Int :=
  if base_null || out_result_null || type_id = none || op_id = none then
    (-1, accum0)
  else
    let t := type_id.getD ""
    let op := op_id.getD ""
    let stride := fossil_algorithm_reduce_type_sizeof type_id
    if stride = 0 then (-2, accum0)
    else if op = "custom" ∧ reduce_fn_null then (-1, accum0)
    else
      let acc := reduceInit op t accum0
      let lanes := if lanes0 = 0 then 1 else lanes0
      let lane_size := (count + lanes - 1) / lanes
      let r := reduceOuter op t m reduce_fn count lane_size lanes 0 acc
      if r.2 then (0, r.1) else (-3, r.1)

/-! ### Helper lemmas -/

theorem upd_same {α : Type} (m : Nat → α) (i : Nat) (v : α) : upd m i v i = v := by
  simp [upd]

theorem upd_other {α : Type} (m : Nat → α) (i j : Nat) (v : α) (h : j ≠ i) :
    upd m i v j = m j := by
  simp [upd, h]

theorem range'_split (s a n : Nat) (h : a ≤ n) :
    List.range' s n = List.range' s a ++ List.range' (s + a) (n - a) := by
  have h2 := (List.range'_append s a (n - a) 1).symm
  simp only [Nat.one_mul, Nat.add_comm a (n - a), Nat.sub_add_cancel h] at h2
  simpa using h2

theorem map_range'_getD {α : Type} (f : Nat → α) (s n : Nat) (L : List α)
    (h : (List.range' s n).map f = L) (j : Nat) (hj : j < n) (d : α) :
    f (s + j) = L.getD j d := by
  subst h
  rw [List.getD_eq_getElem?_getD]
  simp [List.getElem?_map, List.getElem?_range', hj]

theorem readVec_getD {α : Type} (f : Nat → α) (n : Nat) (L : List α)
    (h : readVec f n = L) (j : Nat) (hj : j < n) (d : α) :
    f j = L.getD j d := by
  unfold readVec at h
  rw [List.range_eq_range'] at h
  have := map_range'_getD f 0 n L h j hj d
  simpa using this

/-! ### Specification of the compacting inner loop (`filter_lane_compact`) -/

theorem laneCompactInner_spec {α : Type} (p : α → Bool) :
    ∀ (n i w : Nat) (m : Nat → α), w ≤ i →
      ((laneCompactInner p n i w m).2
          = w + (((List.range' i n).map m).filter p).length)
      ∧ (∀ k, k < w → (laneCompactInner p n i w m).1 k = m k)
      ∧ (∀ k, (laneCompactInner p n i w m).2 ≤ k →
            (laneCompactInner p n i w m).1 k = m k)
      ∧ ((List.range' w ((laneCompactInner p n i w m).2 - w)).map
            (laneCompactInner p n i w m).1
          = ((List.range' i n).map m).filter p) := by
  intro n
  induction n with
  | zero =>
    intro i w m _
    simp [laneCompactInner]
  | succ n ih =>
    intro i w m hwi
    have hsucc : List.range' i (n + 1) = i :: List.range' (i + 1) n :=
      List.range'_succ i n 1
    cases hp : p (m i) with
    | false =>
      have hstep : laneCompactInner p (n + 1) i w m
          = laneCompactInner p n (i + 1) w m := by
        simp [laneCompactInner, hp]
      obtain ⟨h1, h2, h3, h4⟩ := ih (i + 1) w m (by omega)
      rw [hstep, hsucc]
      refine ⟨?_, h2, h3, ?_⟩
      · simp [List.filter_cons, hp, h1]
      · simp [List.filter_cons, hp, h4]
    | true =>
      have hstep : laneCompactInner p (n + 1) i w m
          = laneCompactInner p n (i + 1) (w + 1) (upd m w (m i)) := by
        simp [laneCompactInner, hp]
      have hagree : ∀ x ∈ List.range' (i + 1) n, upd m w (m i) x = m x := by
        intro x hx
        rw [List.mem_range'_1] at hx
        exact upd_other m w x (m i) (by omega)
      have hmap : (List.range' (i + 1) n).map (upd m w (m i))
          = (List.range' (i + 1) n).map m :=
        List.map_congr_left hagree
      obtain ⟨h1, h2, h3, h4⟩ := ih (i + 1) (w + 1) (upd m w (m i)) (by omega)
      rw [hmap] at h1 h4
      have hge : w + 1 ≤ (laneCompactInner p n (i + 1) (w + 1) (upd m w (m i))).2 := by
        omega
      rw [hstep, hsucc]
      refine ⟨?_, ?_, ?_, ?_⟩
      · simp [List.filter_cons, hp, h1]
        omega
      · intro k hk
        rw [h2 k (by omega)]
        exact upd_other m w k (m i) (by omega)
      · intro k hk
        rw [h3 k hk]
        exact upd_other m w k (m i) (by omega)
      · have hlen : (laneCompactInner p n (i + 1) (w + 1) (upd m w (m i))).2 - w
            = ((laneCompactInner p n (i + 1) (w + 1) (upd m w (m i))).2 - (w + 1)) + 1 := by
          omega
        rw [hlen]
        rw [List.range'_succ w _ 1]
        rw [List.map_cons]
        have hw : (laneCompactInner p n (i + 1) (w + 1) (upd m w (m i))).1 w
            = m i := by
          rw [h2 w (by omega)]
          exact upd_same m w (m i)
        rw [hw, h4]
        simp [List.filter_cons, hp]

/-! ### Specification of the compacting lane loop -/

theorem laneCompactOuter_spec {α : Type} (p : α → Bool) (count ls : Nat) :
    ∀ (n lane w : Nat) (m : Nat → α),
      count ≤ (lane + n) * ls → w ≤ lane * ls → w ≤ count →
      ((laneCompactOuter p count ls n lane w m).2
          = w + (((List.range' (min (lane * ls) count)
              (count - min (lane * ls) count)).map m).filter p).length)
      ∧ (∀ k, k < w → (laneCompactOuter p count ls n lane w m).1 k = m k)
      ∧ (∀ k, (laneCompactOuter p count ls n lane w m).2 ≤ k →
          (laneCompactOuter p count ls n lane w m).1 k = m k)
      ∧ ((List.range' w ((laneCompactOuter p count ls n lane w m).2 - w)).map
            (laneCompactOuter p count ls n lane w m).1
          = ((List.range' (min (lane * ls) count)
              (count - min (lane * ls) count)).map m).filter p) := by
  intro n
  induction n with
  | zero =>
    intro lane w m hcnt hw hwc
    have hcnt0 : count ≤ lane * ls := by simpa using hcnt
    have hmin : min (lane * ls) count = count := by omega
    simp [laneCompactOuter, hmin]
  | succ n ih =>
    intro lane w m hcnt hw hwc
    by_cases hs : lane * ls ≥ count
    · have hmin : min (lane * ls) count = count := by omega
      have hstep : laneCompactOuter p count ls (n + 1) lane w m = (m, w) := by
        simp [laneCompactOuter, hs]
      rw [hstep, hmin]
      simp
    · push_neg at hs
      have hmin : min (lane * ls) count = lane * ls := by omega
      obtain ⟨A1, A2, A3, A4⟩ :=
        laneCompactInner_spec p (min (lane * ls + ls) count - lane * ls)
          (lane * ls) w m hw
      set e := min (lane * ls + ls) count with hedef
      set r1 := laneCompactInner p (e - lane * ls) (lane * ls) w m with hr1def
      have hse : lane * ls ≤ e := by omega
      have hec : e ≤ count := by omega
      have hstep : laneCompactOuter p count ls (n + 1) lane w m
          = laneCompactOuter p count ls n (lane + 1) r1.2 r1.1 := by
        rw [hr1def, hedef]
        simp [laneCompactOuter, hs, Nat.not_le_of_lt hs]
      have hlenfil :
          (((List.range' (lane * ls) (e - lane * ls)).map m).filter p).length
            ≤ e - lane * ls := by
        calc (((List.range' (lane * ls) (e - lane * ls)).map m).filter p).length
            ≤ ((List.range' (lane * ls) (e - lane * ls)).map m).length :=
              List.length_filter_le _ _
          _ = e - lane * ls := by simp
      have hw2 : w ≤ r1.2 := by omega
      have hr2e : r1.2 ≤ e := by omega
      have hsuccmul : (lane + 1) * ls = lane * ls + ls := Nat.succ_mul lane ls
      have hcnt' : count ≤ (lane + 1 + n) * ls := by
        have hEq : lane + (n + 1) = lane + 1 + n := by omega
        rw [hEq] at hcnt
        exact hcnt
      have hw' : r1.2 ≤ (lane + 1) * ls := by omega
      have hwc' : r1.2 ≤ count := by omega
      obtain ⟨B1, B2, B3, B4⟩ := ih (lane + 1) r1.2 r1.1 hcnt' hw' hwc'
      have hmins : min ((lane + 1) * ls) count = e := by
        rw [hsuccmul]
      rw [hmins] at B1 B4
      set R := laneCompactOuter p count ls n (lane + 1) r1.2 r1.1 with hRdef
      have hmapsec : (List.range' e (count - e)).map r1.1
          = (List.range' e (count - e)).map m := by
        refine List.map_congr_left ?_
        intro x hx
        rw [List.mem_range'_1] at hx
        exact A3 x (by omega)
      rw [hmapsec] at B1 B4
      have hsplit : List.range' (lane * ls) (count - lane * ls)
          = List.range' (lane * ls) (e - lane * ls)
              ++ List.range' e (count - e) := by
        have h0 := range'_split (lane * ls) (e - lane * ls) (count - lane * ls)
          (by omega)
        rw [show lane * ls + (e - lane * ls) = e from by omega,
            show count - lane * ls - (e - lane * ls) = count - e from by omega] at h0
        exact h0
      have hr2R : r1.2 ≤ R.2 := by omega
      rw [hstep]
      refine ⟨?_, ?_, ?_, ?_⟩
      · rw [hmin, hsplit]
        rw [List.map_append, List.filter_append, List.length_append]
        omega
      · intro k hk
        rw [B2 k (by omega)]
        exact A2 k hk
      · intro k hk
        rw [B3 k hk]
        exact A3 k (by omega)
      · have hsplit2 : List.range' w (R.2 - w)
            = List.range' w (r1.2 - w) ++ List.range' r1.2 (R.2 - r1.2) := by
          have h0 := range'_split w (r1.2 - w) (R.2 - w) (by omega)
          rw [show w + (r1.2 - w) = r1.2 from by omega,
              show R.2 - w - (r1.2 - w) = R.2 - r1.2 from by omega] at h0
          exact h0
        rw [hsplit2, List.map_append]
        have hfirst : (List.range' w (r1.2 - w)).map R.1
            = (List.range' w (r1.2 - w)).map r1.1 := by
          refine List.map_congr_left ?_
          intro x hx
          rw [List.mem_range'_1] at hx
          exact B2 x (by omega)
        rw [hfirst, A4, B4]
        rw [hmin, hsplit, List.map_append, List.filter_append]

/-! ### Specification of the `filter_inplace` loop -/

theorem inplaceLoop_spec {α : Type} (p : α → Bool) :
    ∀ (n i w : Nat) (m : Nat → α), w ≤ i →
      ((inplaceLoop p n i w m).2
          = w + (((List.range' i n).map m).filter p).length)
      ∧ (∀ k, k < w → (inplaceLoop p n i w m).1 k = m k)
      ∧ (∀ k, (inplaceLoop p n i w m).2 ≤ k →
            (inplaceLoop p n i w m).1 k = m k)
      ∧ ((List.range' w ((inplaceLoop p n i w m).2 - w)).map
            (inplaceLoop p n i w m).1
          = ((List.range' i n).map m).filter p) := by
  intro n
  induction n with
  | zero =>
    intro i w m _
    simp [inplaceLoop]
  | succ n ih =>
    intro i w m hwi
    have hsucc : List.range' i (n + 1) = i :: List.range' (i + 1) n :=
      List.range'_succ i n 1
    cases hp : p (m i) with
    | false =>
      have hstep : inplaceLoop p (n + 1) i w m
          = inplaceLoop p n (i + 1) w m := by
        simp [inplaceLoop, hp]
      obtain ⟨h1, h2, h3, h4⟩ := ih (i + 1) w m (by omega)
      rw [hstep, hsucc]
      refine ⟨?_, h2, h3, ?_⟩
      · simp [List.filter_cons, hp, h1]
      · simp [List.filter_cons, hp, h4]
    | true =>
      by_cases hwi2 : w = i
      · subst hwi2
        have hstep : inplaceLoop p (n + 1) w w m
            = inplaceLoop p n (w + 1) (w + 1) m := by
          simp [inplaceLoop, hp]
        obtain ⟨h1, h2, h3, h4⟩ := ih (w + 1) (w + 1) m (by omega)
        have hge : w + 1 ≤ (inplaceLoop p n (w + 1) (w + 1) m).2 := by omega
        rw [hstep, hsucc]
        refine ⟨?_, ?_, ?_, ?_⟩
        · simp [List.filter_cons, hp, h1]
          omega
        · intro k hk
          exact h2 k (by omega)
        · intro k hk
          exact h3 k hk
        · have hlen : (inplaceLoop p n (w + 1) (w + 1) m).2 - w
              = ((inplaceLoop p n (w + 1) (w + 1) m).2 - (w + 1)) + 1 := by
            omega
          rw [hlen, List.range'_succ w _ 1, List.map_cons]
          rw [h2 w (by omega), h4]
          simp [List.filter_cons, hp]
      · have hstep : inplaceLoop p (n + 1) i w m
            = inplaceLoop p n (i + 1) (w + 1) (upd m w (m i)) := by
          simp [inplaceLoop, hp, hwi2]
        have hagree : ∀ x ∈ List.range' (i + 1) n, upd m w (m i) x = m x := by
          intro x hx
          rw [List.mem_range'_1] at hx
          exact upd_other m w x (m i) (by omega)
        have hmap : (List.range' (i + 1) n).map (upd m w (m i))
            = (List.range' (i + 1) n).map m :=
          List.map_congr_left hagree
        obtain ⟨h1, h2, h3, h4⟩ := ih (i + 1) (w + 1) (upd m w (m i)) (by omega)
        rw [hmap] at h1 h4
        have hge : w + 1 ≤ (inplaceLoop p n (i + 1) (w + 1) (upd m w (m i))).2 := by
          omega
        rw [hstep, hsucc]
        refine ⟨?_, ?_, ?_, ?_⟩
        · simp [List.filter_cons, hp, h1]
          omega
        · intro k hk
          rw [h2 k (by omega)]
          exact upd_other m w k (m i) (by omega)
        · intro k hk
          rw [h3 k hk]
          exact upd_other m w k (m i) (by omega)
        · have hlen : (inplaceLoop p n (i + 1) (w + 1) (upd m w (m i))).2 - w
              = ((inplaceLoop p n (i + 1) (w + 1) (upd m w (m i))).2 - (w + 1)) + 1 := by
            omega
          rw [hlen, List.range'_succ w _ 1, List.map_cons]
          have hw : (inplaceLoop p n (i + 1) (w + 1) (upd m w (m i))).1 w = m i := by
            rw [h2 w (by omega)]
            exact upd_same m w (m i)
          rw [hw, h4]
          simp [List.filter_cons, hp]

/-! ### Specification of the scratch-filling loops -/

theorem laneStableInner_spec {α : Type} (p : α → Bool) (m : Nat → α) :
    ∀ (n i out : Nat) (tmp : Nat → α),
      ((laneStableInner p m n i out tmp).2
          = out + (((List.range' i n).map m).filter p).length)
      ∧ (∀ k, k < out → (laneStableInner p m n i out tmp).1 k = tmp k)
      ∧ (∀ k, (laneStableInner p m n i out tmp).2 ≤ k →
            (laneStableInner p m n i out tmp).1 k = tmp k)
      ∧ ((List.range' out ((laneStableInner p m n i out tmp).2 - out)).map
            (laneStableInner p m n i out tmp).1
          = ((List.range' i n).map m).filter p) := by
  intro n
  induction n with
  | zero =>
    intro i out tmp
    simp [laneStableInner]
  | succ n ih =>
    intro i out tmp
    have hsucc : List.range' i (n + 1) = i :: List.range' (i + 1) n :=
      List.range'_succ i n 1
    cases hp : p (m i) with
    | false =>
      have hstep : laneStableInner p m (n + 1) i out tmp
          = laneStableInner p m n (i + 1) out tmp := by
        simp [laneStableInner, hp]
      obtain ⟨h1, h2, h3, h4⟩ := ih (i + 1) out tmp
      rw [hstep, hsucc]
      refine ⟨?_, h2, h3, ?_⟩
      · simp [List.filter_cons, hp, h1]
      · simp [List.filter_cons, hp, h4]
    | true =>
      have hstep : laneStableInner p m (n + 1) i out tmp
          = laneStableInner p m n (i + 1) (out + 1) (upd tmp out (m i)) := by
        simp [laneStableInner, hp]
      obtain ⟨h1, h2, h3, h4⟩ := ih (i + 1) (out + 1) (upd tmp out (m i))
      have hge : out + 1 ≤ (laneStableInner p m n (i + 1) (out + 1) (upd tmp out (m i))).2 := by
        omega
      rw [hstep, hsucc]
      refine ⟨?_, ?_, ?_, ?_⟩
      · simp [List.filter_cons, hp, h1]
        omega
      · intro k hk
        rw [h2 k (by omega)]
        exact upd_other tmp out k (m i) (by omega)
      · intro k hk
        rw [h3 k hk]
        exact upd_other tmp out k (m i) (by omega)
      · have hlen : (laneStableInner p m n (i + 1) (out + 1) (upd tmp out (m i))).2 - out
            = ((laneStableInner p m n (i + 1) (out + 1) (upd tmp out (m i))).2 - (out + 1)) + 1 := by
          omega
        rw [hlen, List.range'_succ out _ 1, List.map_cons]
        have ho : (laneStableInner p m n (i + 1) (out + 1) (upd tmp out (m i))).1 out
            = m i := by
          rw [h2 out (by omega)]
          exact upd_same tmp out (m i)
        rw [ho, h4]
        simp [List.filter_cons, hp]

theorem stableLoop_eq_laneStableInner {α : Type} (p : α → Bool) (m : Nat → α) :
    ∀ (n i kept : Nat) (tmp : Nat → α),
      stableLoop p m n i kept tmp = laneStableInner p m n i kept tmp := by
  intro n
  induction n with
  | zero => intro i kept tmp; rfl
  | succ n ih =>
    intro i kept tmp
    simp only [stableLoop, laneStableInner]
    cases hp : p (m i) with
    | false => simp [hp, ih]
    | true => simp [hp, ih]

theorem laneStableOuter_spec {α : Type} (p : α → Bool) (m : Nat → α)
    (count ls : Nat) :
    ∀ (n lane out : Nat) (tmp : Nat → α),
      count ≤ (lane + n) * ls →
      ((laneStableOuter p m count ls n lane out tmp).2
          = out + (((List.range' (min (lane * ls) count)
              (count - min (lane * ls) count)).map m).filter p).length)
      ∧ (∀ k, k < out → (laneStableOuter p m count ls n lane out tmp).1 k = tmp k)
      ∧ (∀ k, (laneStableOuter p m count ls n lane out tmp).2 ≤ k →
          (laneStableOuter p m count ls n lane out tmp).1 k = tmp k)
      ∧ ((List.range' out ((laneStableOuter p m count ls n lane out tmp).2 - out)).map
            (laneStableOuter p m count ls n lane out tmp).1
          = ((List.range' (min (lane * ls) count)
              (count - min (lane * ls) count)).map m).filter p) := by
  intro n
  induction n with
  | zero =>
    intro lane out tmp hcnt
    have hcnt0 : count ≤ lane * ls := by simpa using hcnt
    have hmin : min (lane * ls) count = count := by omega
    simp [laneStableOuter, hmin]
  | succ n ih =>
    intro lane out tmp hcnt
    by_cases hs : lane * ls ≥ count
    · have hmin : min (lane * ls) count = count := by omega
      have hstep : laneStableOuter p m count ls (n + 1) lane out tmp = (tmp, out) := by
        simp [laneStableOuter, hs]
      rw [hstep, hmin]
      simp
    · push_neg at hs
      have hmin : min (lane * ls) count = lane * ls := by omega
      obtain ⟨A1, A2, A3, A4⟩ :=
        laneStableInner_spec p m (min (lane * ls + ls) count - lane * ls)
          (lane * ls) out tmp
      set e := min (lane * ls + ls) count with hedef
      set r1 := laneStableInner p m (e - lane * ls) (lane * ls) out tmp with hr1def
      have hse : lane * ls ≤ e := by omega
      have hec : e ≤ count := by omega
      have hstep : laneStableOuter p m count ls (n + 1) lane out tmp
          = laneStableOuter p m count ls n (lane + 1) r1.2 r1.1 := by
        rw [hr1def, hedef]
        simp [laneStableOuter, hs, Nat.not_le_of_lt hs]
      have hout2 : out ≤ r1.2 := by omega
      have hsuccmul : (lane + 1) * ls = lane * ls + ls := Nat.succ_mul lane ls
      have hcnt' : count ≤ (lane + 1 + n) * ls := by
        have hEq : lane + (n + 1) = lane + 1 + n := by omega
        rw [hEq] at hcnt
        exact hcnt
      obtain ⟨B1, B2, B3, B4⟩ := ih (lane + 1) r1.2 r1.1 hcnt'
      have hmins : min ((lane + 1) * ls) count = e := by
        rw [hsuccmul]
      rw [hmins] at B1 B4
      set R := laneStableOuter p m count ls n (lane + 1) r1.2 r1.1 with hRdef
      have hsplit : List.range' (lane * ls) (count - lane * ls)
          = List.range' (lane * ls) (e - lane * ls)
              ++ List.range' e (count - e) := by
        have h0 := range'_split (lane * ls) (e - lane * ls) (count - lane * ls)
          (by omega)
        rw [show lane * ls + (e - lane * ls) = e from by omega,
            show count - lane * ls - (e - lane * ls) = count - e from by omega] at h0
        exact h0
      have hr2R : r1.2 ≤ R.2 := by omega
      rw [hstep]
      refine ⟨?_, ?_, ?_, ?_⟩
      · rw [hmin, hsplit]
        rw [List.map_append, List.filter_append, List.length_append]
        omega
      · intro k hk
        rw [B2 k (by omega)]
        exact A2 k hk
      · intro k hk
        rw [B3 k hk]
        exact A3 k (by omega)
      · have hsplit2 : List.range' out (R.2 - out)
            = List.range' out (r1.2 - out) ++ List.range' r1.2 (R.2 - r1.2) := by
          have h0 := range'_split out (r1.2 - out) (R.2 - out) (by omega)
          rw [show out + (r1.2 - out) = r1.2 from by omega,
              show R.2 - out - (r1.2 - out) = R.2 - r1.2 from by omega] at h0
          exact h0
        rw [hsplit2, List.map_append]
        have hfirst : (List.range' out (r1.2 - out)).map R.1
            = (List.range' out (r1.2 - out)).map r1.1 := by
          refine List.map_congr_left ?_
          intro x hx
          rw [List.mem_range'_1] at hx
          exact B2 x (by omega)
        rw [hfirst, A4, B4]
        rw [hmin, hsplit, List.map_append, List.filter_append]

/-! ### Specification of the counting and query loops -/

theorem countOnlyLoop_spec {α : Type} (p : α → Bool) (m : Nat → α) :
    ∀ (n i hits : Nat),
      countOnlyLoop p m n i hits
        = hits + (((List.range' i n).map m).filter p).length := by
  intro n
  induction n with
  | zero => intro i hits; simp [countOnlyLoop]
  | succ n ih =>
    intro i hits
    have hsucc : List.range' i (n + 1) = i :: List.range' (i + 1) n :=
      List.range'_succ i n 1
    rw [hsucc]
    cases hp : p (m i) with
    | false =>
      simp only [countOnlyLoop, hp, if_neg]
      simp only [Bool.false_eq_true, if_false]
      rw [ih (i + 1) hits]
      simp [List.filter_cons, hp]
    | true =>
      simp only [countOnlyLoop, hp, if_pos]
      rw [ih (i + 1) (hits + 1)]
      simp [List.filter_cons, hp]
      omega

/-! ### Top-level characterisations of the compaction strategies -/

theorem filter_inplace_spec {α : Type} (m : Nat → α) (count : Nat) (p : α → Bool) :
    ((filter_inplace m count p).2 = ((readVec m count).filter p).length)
    ∧ (readVec (filter_inplace m count p).1 (filter_inplace m count p).2
        = (readVec m count).filter p)
    ∧ (∀ k, (filter_inplace m count p).2 ≤ k → (filter_inplace m count p).1 k = m k) := by
  obtain ⟨h1, _, h3, h4⟩ := inplaceLoop_spec p count 0 0 m (Nat.le_refl 0)
  unfold filter_inplace
  unfold readVec
  rw [List.range_eq_range']
  refine ⟨by simpa using h1, ?_, h3⟩
  rw [List.range_eq_range']
  simpa using h4

theorem filter_stable_spec {α : Type} (m : Nat → α) (count : Nat) (p : α → Bool)
    (tmp0 : Nat → α) :
    ((filter_stable m count p tmp0).2 = ((readVec m count).filter p).length)
    ∧ (readVec (filter_stable m count p tmp0).1 (filter_stable m count p tmp0).2
        = (readVec m count).filter p)
    ∧ (∀ k, (filter_stable m count p tmp0).2 ≤ k →
        (filter_stable m count p tmp0).1 k = m k) := by
  obtain ⟨h1, _, _, h4⟩ := laneStableInner_spec p m count 0 0 tmp0
  have hunf : filter_stable m count p tmp0
      = (memcpyN m (laneStableInner p m count 0 0 tmp0).1
          (laneStableInner p m count 0 0 tmp0).2,
         (laneStableInner p m count 0 0 tmp0).2) := by
    unfold filter_stable
    rw [stableLoop_eq_laneStableInner]
  set r := laneStableInner p m count 0 0 tmp0 with hrdef
  rw [hunf]
  unfold readVec
  rw [List.range_eq_range', List.range_eq_range']
  have hkept : (List.range' 0 r.2).map (memcpyN m r.1 r.2)
      = (List.range' 0 r.2).map r.1 := by
    refine List.map_congr_left ?_
    intro x hx
    rw [List.mem_range'_1] at hx
    unfold memcpyN
    rw [if_pos (by omega)]
  refine ⟨by simpa using h1, ?_, ?_⟩
  · rw [hkept]
    simpa using h4
  · intro k hk
    have hk2 : r.2 ≤ k := by simpa using hk
    show (if k < r.2 then r.1 k else m k) = m k
    rw [if_neg (by omega)]

theorem filter_lane_compact_spec {α : Type} (m : Nat → α) (count lanes0 : Nat)
    (p : α → Bool) :
    ((filter_lane_compact m count lanes0 p).2 = ((readVec m count).filter p).length)
    ∧ (readVec (filter_lane_compact m count lanes0 p).1
          (filter_lane_compact m count lanes0 p).2
        = (readVec m count).filter p)
    ∧ (∀ k, (filter_lane_compact m count lanes0 p).2 ≤ k →
        (filter_lane_compact m count lanes0 p).1 k = m k) := by
  set L1 := if lanes0 = 0 then 1 else lanes0 with hL1
  set L := if L1 > count then count else L1 with hL
  set ls := (count + L - 1) / L with hls
  have hL1pos : 1 ≤ L1 := by
    rw [hL1]
    split <;> omega
  have hunf : filter_lane_compact m count lanes0 p
      = laneCompactOuter p count ls L 0 0 m := rfl
  rcases Nat.eq_zero_or_pos count with hc0 | hcpos
  · subst hc0
    have hL0 : L = 0 := by
      rw [hL, if_pos (by omega)]
    rw [hunf, hL0]
    simp [laneCompactOuter, readVec]
  · have hLpos : 1 ≤ L := by
      rw [hL]
      split <;> omega
    have hdm := Nat.div_add_mod (count + L - 1) L
    have hmlt : (count + L - 1) % L < L := Nat.mod_lt _ (by omega)
    have hdiv : count ≤ L * ls := by
      rw [hls]
      omega
    obtain ⟨h1, _, h3, h4⟩ := laneCompactOuter_spec p count ls L 0 0 m
      (by simpa using hdiv) (by simp) (Nat.zero_le count)
    rw [show min (0 * ls) count = 0 from by simp] at h1 h4
    rw [hunf]
    unfold readVec
    rw [List.range_eq_range', List.range_eq_range']
    refine ⟨by simpa using h1, ?_, h3⟩
    simpa using h4

theorem filter_lane_stable_spec {α : Type} (m : Nat → α) (count lanes0 : Nat)
    (p : α → Bool) (tmp0 : Nat → α) :
    ((filter_lane_stable m count lanes0 p tmp0).2 = ((readVec m count).filter p).length)
    ∧ (readVec (filter_lane_stable m count lanes0 p tmp0).1
          (filter_lane_stable m count lanes0 p tmp0).2
        = (readVec m count).filter p)
    ∧ (∀ k, (filter_lane_stable m count lanes0 p tmp0).2 ≤ k →
        (filter_lane_stable m count lanes0 p tmp0).1 k = m k) := by
  set L1 := if lanes0 = 0 then 1 else lanes0 with hL1
  set L := if L1 > count then count else L1 with hL
  set ls := (count + L - 1) / L with hls
  have hL1pos : 1 ≤ L1 := by
    rw [hL1]
    split <;> omega
  have hunf : filter_lane_stable m count lanes0 p tmp0
      = (memcpyN m (laneStableOuter p m count ls L 0 0 tmp0).1
          (laneStableOuter p m count ls L 0 0 tmp0).2,
         (laneStableOuter p m count ls L 0 0 tmp0).2) := rfl
  rcases Nat.eq_zero_or_pos count with hc0 | hcpos
  · subst hc0
    have hL0 : L = 0 := by
      rw [hL, if_pos (by omega)]
    have hz : laneStableOuter p m 0 ls 0 0 0 tmp0 = (tmp0, 0) := rfl
    rw [hunf, hL0, hz]
    refine ⟨by simp [readVec], by simp [readVec], ?_⟩
    intro k hk
    show (if k < 0 then tmp0 k else m k) = m k
    simp
  · have hLpos : 1 ≤ L := by
      rw [hL]
      split <;> omega
    have hdm := Nat.div_add_mod (count + L - 1) L
    have hmlt : (count + L - 1) % L < L := Nat.mod_lt _ (by omega)
    have hdiv : count ≤ L * ls := by
      rw [hls]
      omega
    obtain ⟨h1, _, _, h4⟩ := laneStableOuter_spec p m count ls L 0 0 tmp0
      (by simpa using hdiv)
    rw [show min (0 * ls) count = 0 from by simp] at h1 h4
    set r := laneStableOuter p m count ls L 0 0 tmp0 with hrdef
    rw [hunf]
    unfold readVec
    rw [List.range_eq_range', List.range_eq_range']
    have hkept : (List.range' 0 r.2).map (memcpyN m r.1 r.2)
        = (List.range' 0 r.2).map r.1 := by
      refine List.map_congr_left ?_
      intro x hx
      rw [List.mem_range'_1] at hx
      unfold memcpyN
      rw [if_pos (by omega)]
    refine ⟨by simpa using h1, ?_, ?_⟩
    · rw [hkept]
      simpa using h4
    · intro k hk
      have hk2 : r.2 ≤ k := by simpa using hk
      show (if k < r.2 then r.1 k else m k) = m k
      rw [if_neg (by omega)]

/-- Any two results that report the filtered count, hold the filtered
subsequence in their prefix, and leave the tail untouched are equal as
(memory, count) pairs. -/
theorem filtered_result_unique {α : Type} (m : Nat → α) (count : Nat) (p : α → Bool)
    (r s : (Nat → α) × Nat)
    (hr2 : r.2 = ((readVec m count).filter p).length)
    (hrp : readVec r.1 r.2 = (readVec m count).filter p)
    (hrf : ∀ k, r.2 ≤ k → r.1 k = m k)
    (hs2 : s.2 = ((readVec m count).filter p).length)
    (hsp : readVec s.1 s.2 = (readVec m count).filter p)
    (hsf : ∀ k, s.2 ≤ k → s.1 k = m k) : r = s := by
  have h2 : r.2 = s.2 := by rw [hr2, hs2]
  have h1 : r.1 = s.1 := by
    funext j
    by_cases hj : j < r.2
    · have e1 := readVec_getD r.1 r.2 _ hrp j hj (m j)
      have e2 := readVec_getD s.1 s.2 _ hsp j (by omega) (m j)
      rw [e1, e2]
    · rw [hrf j (by omega), hsf j (by omega)]
  exact Prod.ext h1 h2

/-! ### Count-only -/

theorem filter_count_only_spec {α : Type} (m : Nat → α) (count : Nat)
    (p : α → Bool) :
    filter_count_only m count p = (m, ((readVec m count).filter p).length) := by
  unfold filter_count_only readVec
  rw [countOnlyLoop_spec p m count 0 0, List.range_eq_range']
  simp

/-! ### Lane-range geometry -/

theorem laneRangesLoop_join (count ls : Nat) :
    ∀ (n lane : Nat), count ≤ (lane + n) * ls →
      ((laneRangesLoop count ls n lane).map
          (fun r => List.range' r.1 (r.2 - r.1))).flatten
        = List.range' (min (lane * ls) count)
            (count - min (lane * ls) count) := by
  intro n
  induction n with
  | zero =>
    intro lane hcnt
    have hcnt0 : count ≤ lane * ls := by simpa using hcnt
    have hmin : min (lane * ls) count = count := by omega
    simp [laneRangesLoop, hmin]
  | succ n ih =>
    intro lane hcnt
    by_cases hs : lane * ls ≥ count
    · have hmin : min (lane * ls) count = count := by omega
      simp [laneRangesLoop, hs, hmin]
    · push_neg at hs
      have hmin : min (lane * ls) count = lane * ls := by omega
      have hstep : laneRangesLoop count ls (n + 1) lane
          = (lane * ls, min (lane * ls + ls) count)
              :: laneRangesLoop count ls n (lane + 1) := by
        simp [laneRangesLoop, hs, Nat.not_le_of_lt hs]
      set e := min (lane * ls + ls) count with hedef
      have hse : lane * ls ≤ e := by omega
      have hec : e ≤ count := by omega
      have hsuccmul : (lane + 1) * ls = lane * ls + ls := Nat.succ_mul lane ls
      have hcnt' : count ≤ (lane + 1 + n) * ls := by
        have hEq : lane + (n + 1) = lane + 1 + n := by omega
        rw [hEq] at hcnt
        exact hcnt
      have hrec := ih (lane + 1) hcnt'
      have hmins : min ((lane + 1) * ls) count = e := by
        rw [hsuccmul]
      rw [hmins] at hrec
      rw [hstep, List.map_cons, List.flatten_cons, hrec, hmin]
      have h0 := range'_split (lane * ls) (e - lane * ls) (count - lane * ls)
        (by omega)
      rw [show lane * ls + (e - lane * ls) = e from by omega,
          show count - lane * ls - (e - lane * ls) = count - e from by omega] at h0
      exact h0.symm

/-! ### Frame property of the partition loop -/

theorem partitionLoop_frame {α : Type} (p : α → Bool) :
    ∀ (fuel left right : Nat) (m : Nat → α),
      left ≤ (partitionLoop p fuel left right m).2
      ∧ (∀ k, (partitionLoop p fuel left right m).2 < k →
          (partitionLoop p fuel left right m).1 k = m k) := by
  intro fuel
  induction fuel with
  | zero =>
    intro left right m
    simp [partitionLoop]
  | succ fuel ih =>
    intro left right m
    by_cases hlr : left < right
    · cases hp : p (m left) with
      | true =>
        have hstep : partitionLoop p (fuel + 1) left right m
            = partitionLoop p fuel (left + 1) right m := by
          simp [partitionLoop, hlr, hp]
        obtain ⟨h1, h2⟩ := ih (left + 1) right m
        rw [hstep]
        exact ⟨by omega, h2⟩
      | false =>
        have hstep : partitionLoop p (fuel + 1) left right m
            = partitionLoop p fuel left (right - 1)
                (upd m left (m (right - 1))) := by
          simp [partitionLoop, hlr, hp]
        obtain ⟨h1, h2⟩ := ih left (right - 1) (upd m left (m (right - 1)))
        rw [hstep]
        refine ⟨h1, ?_⟩
        intro k hk
        rw [h2 k hk]
        exact upd_other m left k (m (right - 1)) (by omega)
    · have hstep : partitionLoop p (fuel + 1) left right m = (m, left) := by
        simp [partitionLoop, hlr]
      rw [hstep]
      simp

/-! ### Reduce loop facts -/

theorem reduceOuter_count_zero (op_id type_id : String) (m : Nat → Int)
    (fn : Int → Int → Int) (ls : Nat) :
    ∀ (n lane : Nat) (acc : Int),
      reduceOuter op_id type_id m fn 0 ls n lane acc = (acc, true) := by
  intro n
  cases n with
  | zero => intro lane acc; rfl
  | succ n => intro lane acc; simp [reduceOuter]

/-! ### Concrete test fixtures -/

/-- The buffer `[1, 2, 3, 4, 5, 6]` used by the repository's filter
tests. -/
def bufSix : Nat → Int := fun j => ([1, 2, 3, 4, 5, 6] : List Int).getD j 0

/-- The even-keeping predicate of the repository's filter tests. -/
def evenInt : Int → Bool := fun v => v % 2 == 0

/-- The buffer `[4, 2, 5, 1, 3]` of the repository's `u8` max reduce
test. -/
def bufMax : Nat → Int := fun j => ([4, 2, 5, 1, 3] : List Int).getD j 0

/-- A zero-filled scratch buffer / dummy memory. -/
def zeroMem : Nat → Int := fun _ => 0

/-- A dummy custom reducer (first projection). -/
def dummyFn : Int → Int → Int := fun a _ => a

/-! ### Claims -/

/-- C1: every compaction strategy among inplace/compact, stable,
lane-compact and lane-stable is order-preserving: the returned count is
the number of elements satisfying the predicate and the retained
prefix is exactly the subsequence of satisfying elements in original
order, for every buffer, count, predicate (and lane count / scratch
content for the lane and stable variants); in particular on
`[1,2,3,4,5,6]` with the even-keeping predicate all four return count 3
and prefix `[2,4,6]`. -/
theorem C1_compaction_order_preserving {α : Type} (m : Nat → α) (count : Nat)
    (p : α → Bool) (lanes0 : Nat) (tmp0 : Nat → α) :
    ((filter_inplace m count p).2 = ((readVec m count).filter p).length
      ∧ readVec (filter_inplace m count p).1 (filter_inplace m count p).2
          = (readVec m count).filter p)
    ∧ ((filter_stable m count p tmp0).2 = ((readVec m count).filter p).length
      ∧ readVec (filter_stable m count p tmp0).1 (filter_stable m count p tmp0).2
          = (readVec m count).filter p)
    ∧ ((filter_lane_compact m count lanes0 p).2 = ((readVec m count).filter p).length
      ∧ readVec (filter_lane_compact m count lanes0 p).1
            (filter_lane_compact m count lanes0 p).2
          = (readVec m count).filter p)
    ∧ ((filter_lane_stable m count lanes0 p tmp0).2 = ((readVec m count).filter p).length
      ∧ readVec (filter_lane_stable m count lanes0 p tmp0).1
            (filter_lane_stable m count lanes0 p tmp0).2
          = (readVec m count).filter p)
    ∧ ((filter_inplace bufSix 6 evenInt).2 = 3
      ∧ readVec (filter_inplace bufSix 6 evenInt).1 3 = [2, 4, 6]
      ∧ (filter_stable bufSix 6 evenInt zeroMem).2 = 3
      ∧ readVec (filter_stable bufSix 6 evenInt zeroMem).1 3 = [2, 4, 6]
      ∧ (filter_lane_compact bufSix 6 2 evenInt).2 = 3
      ∧ readVec (filter_lane_compact bufSix 6 2 evenInt).1 3 = [2, 4, 6]
      ∧ (filter_lane_stable bufSix 6 2 evenInt zeroMem).2 = 3
      ∧ readVec (filter_lane_stable bufSix 6 2 evenInt zeroMem).1 3 = [2, 4, 6]) := by
  obtain ⟨a1, a2, _⟩ := filter_inplace_spec m count p
  obtain ⟨b1, b2, _⟩ := filter_stable_spec m count p tmp0
  obtain ⟨c1, c2, _⟩ := filter_lane_compact_spec m count lanes0 p
  obtain ⟨d1, d2, _⟩ := filter_lane_stable_spec m count lanes0 p tmp0
  exact ⟨⟨a1, a2⟩, ⟨b1, b2⟩, ⟨c1, c2⟩, ⟨d1, d2⟩, by decide⟩

/-- C2: on the failing input of the repository's own partition test —
buffer `[1,2,3,4,5,6]`, even-keeping predicate — `filter_partition`
returns count 3 but leaves the prefix `[6,2,4]`, not the
order-preserving `[2,4,6]` asserted by the spec and by
`cpp_test_filter_exec_i32_partition_even`. -/
theorem C2_partition_failing_input :
    (filter_partition bufSix 6 evenInt).2 = 3
    ∧ readVec (filter_partition bufSix 6 evenInt).1 3 = [6, 2, 4]
    ∧ readVec (filter_partition bufSix 6 evenInt).1 3 ≠ [2, 4, 6] := by
  decide

/-- C3 (counterexample): after `filter_partition` on `[1,2,3,4,5,6]`
with the even-keeping predicate the tail beyond the returned count 3 is
`[4,5,6]`, which is not a permutation of the originally-failing
elements `[1,3,5]`. -/
theorem C3_partition_tail_counterexample :
    (filter_partition bufSix 6 evenInt).2 = 3
    ∧ readSlice (filter_partition bufSix 6 evenInt).1 3 3 = [4, 5, 6]
    ∧ ¬ (readSlice (filter_partition bufSix 6 evenInt).1 3 3).Perm
          ((readVec bufSix 6).filter (fun v => ! evenInt v)) := by
  decide

/-- C3 (amended): after `filter_partition` returns `left`, every
element at an index strictly greater than `left` retains its pre-call
value; the element at index `left` itself may have been overwritten by
a moved element, so the region beyond `left` need not contain the
originally-failing elements. -/
theorem C3_partition_tail_unchanged {α : Type} (m : Nat → α) (count : Nat)
    (p : α → Bool) (k : Nat)
    (hk : (filter_partition m count p).2 < k) :
    (filter_partition m count p).1 k = m k := by
  obtain ⟨_, h2⟩ := partitionLoop_frame p count 0 count m
  exact h2 k hk

/-- C3 (witness): instance of the amended claim at the concrete test
input, index 4. -/
theorem C3_partition_tail_unchanged_witness :
    (filter_partition bufSix 6 evenInt).2 < 4
    ∧ (filter_partition bufSix 6 evenInt).1 4 = bufSix 4 :=
  ⟨by decide, C3_partition_tail_unchanged bufSix 6 evenInt 4 (by decide)⟩

/-- C10: each of inplace/compact, stable, lane-compact and lane-stable
writes only within the first `k` elements, `k` the returned count:
every element at an index `≥ k` retains its pre-call value. -/
theorem C10_tail_untouched {α : Type} (m : Nat → α) (count : Nat)
    (p : α → Bool) (lanes0 : Nat) (tmp0 : Nat → α) (k : Nat) :
    ((filter_inplace m count p).2 ≤ k → (filter_inplace m count p).1 k = m k)
    ∧ ((filter_stable m count p tmp0).2 ≤ k →
        (filter_stable m count p tmp0).1 k = m k)
    ∧ ((filter_lane_compact m count lanes0 p).2 ≤ k →
        (filter_lane_compact m count lanes0 p).1 k = m k)
    ∧ ((filter_lane_stable m count lanes0 p tmp0).2 ≤ k →
        (filter_lane_stable m count lanes0 p tmp0).1 k = m k) := by
  obtain ⟨_, _, a3⟩ := filter_inplace_spec m count p
  obtain ⟨_, _, b3⟩ := filter_stable_spec m count p tmp0
  obtain ⟨_, _, c3⟩ := filter_lane_compact_spec m count lanes0 p
  obtain ⟨_, _, d3⟩ := filter_lane_stable_spec m count lanes0 p tmp0
  exact ⟨a3 k, b3 k, c3 k, d3 k⟩

/-- C10 (witness): instance at the concrete test input, index 4. -/
theorem C10_tail_untouched_witness :
    ((filter_inplace bufSix 6 evenInt).2 ≤ 4
      ∧ (filter_inplace bufSix 6 evenInt).1 4 = bufSix 4)
    ∧ ((filter_stable bufSix 6 evenInt zeroMem).2 ≤ 4
      ∧ (filter_stable bufSix 6 evenInt zeroMem).1 4 = bufSix 4)
    ∧ ((filter_lane_compact bufSix 6 2 evenInt).2 ≤ 4
      ∧ (filter_lane_compact bufSix 6 2 evenInt).1 4 = bufSix 4)
    ∧ ((filter_lane_stable bufSix 6 2 evenInt zeroMem).2 ≤ 4
      ∧ (filter_lane_stable bufSix 6 2 evenInt zeroMem).1 4 = bufSix 4) := by
  obtain ⟨a, b, c, d⟩ := C10_tail_untouched bufSix 6 evenInt 2 zeroMem 4
  exact ⟨⟨by decide, a (by decide)⟩, ⟨by decide, b (by decide)⟩,
    ⟨by decide, c (by decide)⟩, ⟨by decide, d (by decide)⟩⟩

/-- C7: for `1 ≤ lanes ≤ count` the lane ranges tile `[0, count)`
exactly (their concatenation, in order, is `0, 1, ..., count-1`), and
the full lane-compact / lane-stable results — final buffer and
returned count — do not depend on the lane count; in particular they
equal the `lanes = 1` result. -/
theorem C7_lane_invariance {α : Type} (m : Nat → α) (count : Nat)
    (p : α → Bool) (lanes : Nat) (tmp0 : Nat → α)
    (h1 : 1 ≤ lanes) (h2 : lanes ≤ count) :
    (((laneRanges count lanes).map
        (fun r => List.range' r.1 (r.2 - r.1))).flatten = List.range count)
    ∧ filter_lane_compact m count lanes p = filter_lane_compact m count 1 p
    ∧ filter_lane_stable m count lanes p tmp0
        = filter_lane_stable m count 1 p tmp0 := by
  refine ⟨?_, ?_, ?_⟩
  · have hdm := Nat.div_add_mod (count + lanes - 1) lanes
    have hmlt : (count + lanes - 1) % lanes < lanes := Nat.mod_lt _ (by omega)
    have hdiv : count ≤ lanes * ((count + lanes - 1) / lanes) := by omega
    have hj := laneRangesLoop_join count ((count + lanes - 1) / lanes) lanes 0
      (by simpa using hdiv)
    rw [show min (0 * ((count + lanes - 1) / lanes)) count = 0 from by simp] at hj
    unfold laneRanges
    rw [hj, List.range_eq_range']
    simp
  · obtain ⟨c1, c2, c3⟩ := filter_lane_compact_spec m count lanes p
    obtain ⟨e1, e2, e3⟩ := filter_lane_compact_spec m count 1 p
    exact filtered_result_unique m count p _ _ c1 c2 c3 e1 e2 e3
  · obtain ⟨c1, c2, c3⟩ := filter_lane_stable_spec m count lanes p tmp0
    obtain ⟨e1, e2, e3⟩ := filter_lane_stable_spec m count 1 p tmp0
    exact filtered_result_unique m count p _ _ c1 c2 c3 e1 e2 e3

/-- C7 (witness): instance at `count = 6`, `lanes = 2`, the concrete
test buffer and predicate. -/
theorem C7_lane_invariance_witness :
    (1 ≤ 2) ∧ (2 ≤ 6)
    ∧ (((laneRanges 6 2).map
        (fun r => List.range' r.1 (r.2 - r.1))).flatten = List.range 6)
    ∧ filter_lane_compact bufSix 6 2 evenInt = filter_lane_compact bufSix 6 1 evenInt
    ∧ filter_lane_stable bufSix 6 2 evenInt zeroMem
        = filter_lane_stable bufSix 6 1 evenInt zeroMem := by
  obtain ⟨a, b, c⟩ :=
    C7_lane_invariance bufSix 6 evenInt 2 zeroMem (by decide) (by decide)
  exact ⟨by decide, by decide, a, b, c⟩

/-- C4 (counterexample): with non-null base, accumulator and
identifiers, operator `"custom"`, a null custom reducer and the type
identifier `"null"`, `fossil_algorithm_reduce_exec` returns -2, not
the -1 the claim requires: the type-resolution check runs first. -/
theorem C4_custom_null_counterexample :
    (fossil_algorithm_reduce_exec false zeroMem 3 (some "null") (some "custom")
        none 0 false 0 true dummyFn).1 = -2
    ∧ (fossil_algorithm_reduce_exec false zeroMem 3 (some "null") (some "custom")
        none 0 false 0 true dummyFn).1 ≠ -1 := by
  decide

/-- C4 (amended): the null-custom-reducer check runs after type
resolution: with operator `"custom"` and a null reducer the call
returns -1 when the type identifier is supported, and -2 when the type
identifier resolves to width 0 (unknown or `"null"`). -/
theorem C4_custom_null_after_type_resolution (m : Nat → Int) (count : Nat)
    (t : String) (mid : Option String) (lanes0 : Nat) (accum0 : Int)
    (fn : Int → Int → Int) :
    (fossil_algorithm_reduce_type_sizeof (some t) ≠ 0 →
      fossil_algorithm_reduce_exec false m count (some t) (some "custom") mid
          lanes0 false accum0 true fn = (-1, accum0))
    ∧ (fossil_algorithm_reduce_type_sizeof (some t) = 0 →
      fossil_algorithm_reduce_exec false m count (some t) (some "custom") mid
          lanes0 false accum0 true fn = (-2, accum0)) := by
  constructor
  · intro h
    simp [fossil_algorithm_reduce_exec, h]
  · intro h
    simp [fossil_algorithm_reduce_exec, h]

/-- C4 (witness): instances at type `"i32"` (supported, status -1) and
type `"null"` (width 0, status -2). -/
theorem C4_custom_null_after_type_resolution_witness :
    (fossil_algorithm_reduce_type_sizeof (some "i32") ≠ 0
      ∧ fossil_algorithm_reduce_exec false zeroMem 3 (some "i32") (some "custom")
          none 0 false 0 true dummyFn = (-1, 0))
    ∧ (fossil_algorithm_reduce_type_sizeof (some "null") = 0
      ∧ fossil_algorithm_reduce_exec false zeroMem 3 (some "null") (some "custom")
          none 0 false 0 true dummyFn = (-2, 0)) :=
  ⟨⟨by decide,
    (C4_custom_null_after_type_resolution zeroMem 3 "i32" none 0 0 dummyFn).1
      (by decide)⟩,
   ⟨by decide,
    (C4_custom_null_after_type_resolution zeroMem 3 "null" none 0 0 dummyFn).2
      (by decide)⟩⟩

/-- C5: on the repository's own `u8` max test input — operator `"max"`,
type `"u8"`, buffer `[4,2,5,1,3]`, accumulator pre-seeded to 0 —
`fossil_algorithm_reduce_exec` returns status 0 but leaves the
accumulator at 0: neither the initialiser nor `reduce_max` has a `u8`
branch, so 5 is never written. -/
theorem C5_u8_max_failing_input :
    fossil_algorithm_reduce_exec false bufMax 5 (some "u8") (some "max") none 0
        false 0 false dummyFn = (0, 0)
    ∧ (fossil_algorithm_reduce_exec false bufMax 5 (some "u8") (some "max") none 0
        false 0 false dummyFn).2 ≠ 5 := by
  decide

/-- C6 (counterexample): `fossil_algorithm_filter_exec` with a null
`out_count` and otherwise valid arguments returns 0 (success), not the
-1 the claim requires; it merely skips writing the count. -/
theorem C6_null_out_count_counterexample :
    (fossil_algorithm_filter_exec false bufSix 6 (some "i32") (some "inplace")
        none 0 false evenInt true zeroMem).1 = 0
    ∧ (fossil_algorithm_filter_exec false bufSix 6 (some "i32") (some "inplace")
        none 0 false evenInt true zeroMem).1 ≠ -1
    ∧ (fossil_algorithm_filter_exec false bufSix 6 (some "i32") (some "inplace")
        none 0 false evenInt true zeroMem).2.2 = none := by
  decide

/-- C6 (amended): only `fossil_algorithm_reduce_exec` treats a null
output slot as invalid input (-1, unconditionally);
`fossil_algorithm_filter_exec` accepts a null `out_count`, runs the
requested algorithm normally, returns 0 and writes nothing through the
output slot. -/
theorem C6_null_output_handling :
    (∀ (base_null : Bool) (m : Nat → Int) (count : Nat)
        (tid oid mid : Option String) (lanes0 : Nat) (accum0 : Int)
        (fnn : Bool) (fn : Int → Int → Int),
      (fossil_algorithm_reduce_exec base_null m count tid oid mid lanes0 true
          accum0 fnn fn).1 = -1)
    ∧ (∀ (α : Type) (m : Nat → α) (count : Nat) (tid : Option String)
        (lanes0 : Nat) (p : α → Bool) (tmp0 : Nat → α),
      fossil_algorithm_filter_type_sizeof tid ≠ 0 →
      fossil_algorithm_filter_exec false m count tid (some "inplace") none
          lanes0 false p true tmp0
        = (0, (filter_inplace m count p).1, none)) := by
  constructor
  · intro base_null m count tid oid mid lanes0 accum0 fnn fn
    simp [fossil_algorithm_reduce_exec]
  · intro α m count tid lanes0 p tmp0 h
    simp [fossil_algorithm_filter_exec, h]

/-- C6 (witness): a reduce call with null output returning -1, and a
filter call with null `out_count` succeeding. -/
theorem C6_null_output_handling_witness :
    ((fossil_algorithm_reduce_exec false zeroMem 3 (some "i32") (some "sum")
        none 0 true 7 false dummyFn).1 = -1)
    ∧ (fossil_algorithm_filter_type_sizeof (some "i32") ≠ 0
      ∧ fossil_algorithm_filter_exec false bufSix 6 (some "i32") (some "inplace")
          none 0 false evenInt true zeroMem
        = (0, (filter_inplace bufSix 6 evenInt).1, none)) :=
  ⟨C6_null_output_handling.1 false zeroMem 3 (some "i32") (some "sum") none 0 7
      false dummyFn,
   ⟨by decide,
    C6_null_output_handling.2 Int bufSix 6 (some "i32") 0 evenInt zeroMem
      (by decide)⟩⟩

/-- C8: with mode `"dry-run"`, `fossil_algorithm_filter_exec` behaves
exactly like the count-only algorithm whatever the requested algorithm
identifier (recognised or not): the buffer is returned unchanged,
status is 0, the reported count is the number of satisfying elements,
and the call equals a `"count-only"` call; `filter_count_only` itself
never mutates the buffer. -/
theorem C8_dry_run_count_only {α : Type} (m : Nat → α) (count : Nat)
    (type_id algorithm_id0 : Option String) (lanes0 : Nat) (p : α → Bool)
    (out_null : Bool) (tmp0 : Nat → α)
    (ht : fossil_algorithm_filter_type_sizeof type_id ≠ 0) :
    fossil_algorithm_filter_exec false m count type_id algorithm_id0
        (some "dry-run") lanes0 false p out_null tmp0
      = (0, m, if out_null then none
            else some (((readVec m count).filter p).length))
    ∧ fossil_algorithm_filter_exec false m count type_id algorithm_id0
        (some "dry-run") lanes0 false p out_null tmp0
      = fossil_algorithm_filter_exec false m count type_id (some "count-only")
          none lanes0 false p out_null tmp0
    ∧ (∀ (m2 : Nat → α) (count2 : Nat) (q : α → Bool),
        (filter_count_only m2 count2 q).1 = m2) := by
  refine ⟨?_, ?_, fun m2 count2 q => rfl⟩
  · simp [fossil_algorithm_filter_exec, ht, filter_count_only_spec]
  · simp [fossil_algorithm_filter_exec, ht, filter_count_only_spec]

/-- C8 (witness): dry-run with an unrecognised algorithm identifier on
the concrete test buffer. -/
theorem C8_dry_run_count_only_witness :
    fossil_algorithm_filter_type_sizeof (some "i32") ≠ 0
    ∧ fossil_algorithm_filter_exec false bufSix 6 (some "i32") (some "notalgo")
        (some "dry-run") 0 false evenInt false zeroMem
      = (0, bufSix, some (((readVec bufSix 6).filter evenInt).length)) := by
  have h := (C8_dry_run_count_only bufSix 6 (some "i32") (some "notalgo") 0
    evenInt false zeroMem (by decide)).1
  exact ⟨by decide, by simpa using h⟩

/-- C9: the operator identifier of `fossil_algorithm_reduce_exec` is
only examined inside the per-element loop, so an unrecognised operator
with `count = 0` (and otherwise valid arguments on a supported type)
returns status 0 with the accumulator bytes untouched; status -3 can
only arise when at least one element is scanned. -/
theorem C9_lazy_unknown_operator (m : Nat → Int) (t op : String)
    (mid : Option String) (lanes0 : Nat) (accum0 : Int) (fnnull : Bool)
    (fn : Int → Int → Int)
    (ht : fossil_algorithm_reduce_type_sizeof (some t) ≠ 0)
    (hop : op ∉ (["sum", "min", "max", "count", "any", "all", "custom"] : List String)) :
    fossil_algorithm_reduce_exec false m 0 (some t) (some op) mid lanes0 false
        accum0 fnnull fn = (0, accum0)
    ∧ (∀ (base_null : Bool) (m2 : Nat → Int) (tid oid mid2 : Option String)
        (lanes2 : Nat) (outn : Bool) (acc2 : Int) (fnn : Bool)
        (fn2 : Int → Int → Int),
      (fossil_algorithm_reduce_exec base_null m2 0 tid oid mid2 lanes2 outn
          acc2 fnn fn2).1 ≠ -3) := by
  constructor
  · simp only [List.mem_cons, List.not_mem_nil, or_false, not_or] at hop
    obtain ⟨h1, h2, h3, h4, h5, h6, h7⟩ := hop
    simp [fossil_algorithm_reduce_exec, reduceInit, h1, h2, h3, h4, h5, h6, h7,
      ht, reduceOuter_count_zero]
  · intro base_null m2 tid oid mid2 lanes2 outn acc2 fnn fn2
    simp only [fossil_algorithm_reduce_exec]
    split_ifs <;> simp_all [reduceOuter_count_zero]

/-- C9 (witness): unrecognised operator `"bogus"` on type `"i32"` with
zero elements returns success and leaves the accumulator at 77. -/
theorem C9_lazy_unknown_operator_witness :
    fossil_algorithm_reduce_type_sizeof (some "i32") ≠ 0
    ∧ ("bogus" : String) ∉
        (["sum", "min", "max", "count", "any", "all", "custom"] : List String)
    ∧ fossil_algorithm_reduce_exec false zeroMem 0 (some "i32") (some "bogus")
        none 0 false 77 false dummyFn = (0, 77) :=
  ⟨by decide, by decide,
   (C9_lazy_unknown_operator zeroMem "i32" "bogus" none 0 77 false dummyFn
      (by decide) (by decide)).1⟩

end FossilAlgo
